import Mathlib

/-!
Verification of the I2C bus shim (`src/esw/motors/I2C.h`).

The repository's sources contain only the header: the declarations of
`struct IOFailure`, the `I2C` class with its `inline static int file = -1`
descriptor, its `inline static std::mutex transact_m`, and the two static
member functions `init` and `transact`.  The bodies of `init` and
`transact` are not part of the sources, so their behaviour is modelled
from the specification (each such definition carries a
`Modelled from the spec:` doc comment).  The declarations themselves
(types of the parameters, the empty exception struct, the `-1` unopened
sentinel) are translated directly from the header.
-/

set_option maxHeartbeats 1000000

namespace MRover

/-- Mirrors `struct IOFailure : public std::exception {};` from I2C.h: an
empty exception type with no fields and a single value. -/
structure IOFailure : Type where

instance : DecidableEq IOFailure := fun a b => by
  cases a; cases b; exact isTrue rfl

/-- The component state declared in I2C.h: the single descriptor
`inline static int file = -1`, with `-1` as the unopened sentinel. -/
structure I2CState where
  file : Int
deriving DecidableEq

/-- An operation observed on the bus: setting the target address,
a buffered write, or a read of a given byte count. -/
inductive BusEvent where
  | setAddr (addr : Nat)
  | write (bytes : List Nat)
  | read (count : Nat)
deriving DecidableEq

/-- Modelled from the spec: the OS primitives the shim relies on
(device-node open, set-target-address, buffered write, buffered read),
which are external collaborators not part of the repository sources.
`openResult` is the descriptor returned by a successful open (`none` for
a failed open); `setAddrOk` and `writeOk` tell whether the respective
phase succeeds; `readResult` gives, on success, the byte stream the
peripheral returns. -/
structure BusEnv where
  openResult : Option Nat
  setAddrOk : Nat → Bool
  writeOk : Nat → List Nat → Bool
  readResult : Nat → Nat → Option (Nat → Nat)

/-- Modelled from the spec: the body of `I2C::init` is absent from the
sources (only its declaration is in I2C.h).  Per the spec it ensures the
fixed device node is open exactly once (no-op after a previous success),
and fails with `IOFailure` when the node cannot be opened, leaving the
descriptor unopened. -/
def I2C.init (env : BusEnv) (s : I2CState) : I2CState × Option IOFailure :=
  if s.file = -1 then
    match env.openResult with
    | some fd => ({ file := (fd : Int) }, none)
    | none => (s, some ⟨⟩)
  else
    (s, none)

/-- The outcome of one `transact` call: the surfaced failure (if any), the
final contents of the caller's read buffer, and the sequence of bus
operations the call issued. -/
structure TransactResult where
  result : Option IOFailure
  readBuf : List Nat
  trace : List BusEvent
deriving DecidableEq

/-- Modelled from the spec: the body of `I2C::transact` is absent from the
sources (only its declaration is in I2C.h).  The declaration types
`addr`, `cmd`, `writeNum` and `readNum` as `uint8_t`, modelled here by
reducing each modulo 256 on entry.  Per the spec the call fails with
`IOFailure` on an unopened descriptor before any bus I/O; otherwise it
sets the target address, writes the command byte followed by `writeNum`
payload bytes from `writeBuf`, and, when `readNum > 0`, reads `readNum`
bytes into `readBuf`; any failed phase aborts the call immediately with
`IOFailure`. -/
def I2C.transact (env : BusEnv) (s : I2CState) (addr cmd writeNum readNum : Nat)
    (writeBuf readBuf : List Nat) : TransactResult :=
  if s.file = -1 then
    ⟨some ⟨⟩, readBuf, []⟩
  else if env.setAddrOk (addr % 256) = false then
    ⟨some ⟨⟩, readBuf, [.setAddr (addr % 256)]⟩
  else if env.writeOk (addr % 256) (cmd % 256 :: writeBuf.take (writeNum % 256)) = false then
    ⟨some ⟨⟩, readBuf,
      [.setAddr (addr % 256), .write (cmd % 256 :: writeBuf.take (writeNum % 256))]⟩
  else if readNum % 256 = 0 then
    ⟨none, readBuf,
      [.setAddr (addr % 256), .write (cmd % 256 :: writeBuf.take (writeNum % 256))]⟩
  else
    match env.readResult (addr % 256) (readNum % 256) with
    | none =>
        ⟨some ⟨⟩, readBuf,
          [.setAddr (addr % 256), .write (cmd % 256 :: writeBuf.take (writeNum % 256)),
            .read (readNum % 256)]⟩
    | some f =>
        ⟨none, (List.range (readNum % 256)).map f ++ readBuf.drop (readNum % 256),
          [.setAddr (addr % 256), .write (cmd % 256 :: writeBuf.take (writeNum % 256)),
            .read (readNum % 256)]⟩

/-- Whether a bus event is a read phase. -/
def isReadEv : BusEvent → Bool
  | .read _ => true
  | _ => false

/-- Every field of a bus event fits the 8-bit interface: at most
`1 + 255` bytes in a write phase (command byte plus at most 255 payload
bytes), at most 255 bytes requested by a read phase, and an address of at
most 255. -/
def byteBounded : BusEvent → Prop
  | .setAddr a => a ≤ 255
  | .write bs => bs.length ≤ 256
  | .read n => n ≤ 255

/-- Modelled from the spec: a thread calling into the shim.  A thread is
either between calls (`ready`, holding the list of `transact` calls it
has yet to make, each represented by the block of bus events that call
will issue, truncated at the failing phase when the call fails) or in the
middle of a call (`inCall`, holding the call's ticket, the events still
to issue, and the remaining pending calls). -/
inductive ThreadSt where
  | ready (pending : List (List BusEvent))
  | inCall (id : Nat) (remaining : List BusEvent) (pending : List (List BusEvent))
deriving DecidableEq

/-- Modelled from the spec: the process-wide shared state seen by all
threads — the single `inline static std::mutex transact_m` of I2C.h as
`lock` (the index of the thread currently holding it), the threads, a
ticket counter used to tag calls, and the sequence of bus operations
observed so far tagged by the call that issued each. -/
structure Sys where
  lock : Option Nat
  threads : Nat → ThreadSt
  nextId : Nat
  trace : List (Nat × BusEvent)

/-- Modelled from the spec: one interleaving step of the concurrent
system.  `transact` acquires the single exclusive lock before touching
the bus, issues its phases only while holding it, and releases it on
every exit path (the end of the event block, whether the call succeeded
or aborted). -/
inductive Step : Sys → Sys → Prop where
  | acquire (s : Sys) (t : Nat) (c : List BusEvent) (pend : List (List BusEvent)) (s' : Sys) :
      s.lock = none →
      s.threads t = ThreadSt.ready (c :: pend) →
      s' = { lock := some t,
             threads := Function.update s.threads t (ThreadSt.inCall s.nextId c pend),
             nextId := s.nextId + 1,
             trace := s.trace } →
      Step s s'
  | emit (s : Sys) (t : Nat) (id : Nat) (e : BusEvent) (es : List BusEvent)
      (pend : List (List BusEvent)) (s' : Sys) :
      s.lock = some t →
      s.threads t = ThreadSt.inCall id (e :: es) pend →
      s' = { s with threads := Function.update s.threads t (ThreadSt.inCall id es pend),
                    trace := s.trace ++ [(id, e)] } →
      Step s s'
  | release (s : Sys) (t : Nat) (id : Nat) (pend : List (List BusEvent)) (s' : Sys) :
      s.lock = some t →
      s.threads t = ThreadSt.inCall id [] pend →
      s' = { lock := none,
             threads := Function.update s.threads t (ThreadSt.ready pend),
             nextId := s.nextId,
             trace := s.trace } →
      Step s s'

/-- Modelled from the spec: the initial system state — lock free, every
thread between calls, no bus operation observed yet. -/
def Sys.start (calls : Nat → List (List BusEvent)) : Sys :=
  { lock := none, threads := fun t => ThreadSt.ready (calls t), nextId := 0, trace := [] }

/-- States reachable from a given state by interleaving steps. -/
inductive Reachable (s₀ : Sys) : Sys → Prop where
  | refl : Reachable s₀ s₀
  | step {s s' : Sys} : Reachable s₀ s → Step s s' → Reachable s₀ s'

/-- The lock discipline invariant: any thread that is mid-call holds the
lock, its ticket is below the counter, and every bus operation recorded
so far carries a ticket no larger than its own. -/
def holderBound (s : Sys) : Prop :=
  ∀ t id rem pend, s.threads t = ThreadSt.inCall id rem pend →
    s.lock = some t ∧ id < s.nextId ∧ ∀ p ∈ s.trace, p.1 ≤ id

/-- The global invariant: tickets appear in the trace in non-decreasing
order, every recorded ticket is below the counter, and the lock
discipline holds. -/
def Inv (s : Sys) : Prop :=
  (s.trace.map Prod.fst).Pairwise (· ≤ ·) ∧
  (∀ p ∈ s.trace, p.1 < s.nextId) ∧
  holderBound s

theorem Inv_start (calls : Nat → List (List BusEvent)) : Inv (Sys.start calls) := by
  refine ⟨List.Pairwise.nil, ?_, ?_⟩
  · intro p hp; simp [Sys.start] at hp
  · intro t id rem pend h; simp [Sys.start] at h

theorem Inv_step {s s' : Sys} (hI : Inv s) (hstep : Step s s') : Inv s' := by
  obtain ⟨hmono, hbound, hholder⟩ := hI
  cases hstep with
  | acquire t c pend s' hlock hth hs' =>
    subst hs'
    refine ⟨hmono, ?_, ?_⟩
    · intro p hp; exact Nat.lt_succ_of_lt (hbound p hp)
    · intro u id rem pnd hu
      dsimp only at hu ⊢
      by_cases hut : u = t
      · subst hut
        rw [Function.update_same] at hu
        injection hu with h1 h2 h3
        subst h1
        exact ⟨rfl, Nat.lt_succ_self _, fun p hp => Nat.le_of_lt (hbound p hp)⟩
      · rw [Function.update_noteq hut] at hu
        have h2 := (hholder u id rem pnd hu).1
        rw [hlock] at h2
        exact absurd h2 (by simp)
  | emit t id e es pend s' hlock hth hs' =>
    subst hs'
    obtain ⟨-, hidlt, hle⟩ := hholder t id (e :: es) pend hth
    refine ⟨?_, ?_, ?_⟩
    · dsimp only
      rw [List.map_append, List.pairwise_append]
      refine ⟨hmono, by simp, ?_⟩
      intro a ha b hb
      simp only [List.map_cons, List.map_nil, List.mem_singleton] at hb
      subst hb
      obtain ⟨p, hp, rfl⟩ := List.mem_map.1 ha
      exact hle p hp
    · intro p hp
      dsimp only at hp ⊢
      rcases List.mem_append.1 hp with h | h
      · exact hbound p h
      · rw [List.mem_singleton] at h
        subst h
        exact hidlt
    · intro u id' rem' pnd' hu
      dsimp only at hu ⊢
      by_cases hut : u = t
      · subst hut
        rw [Function.update_same] at hu
        injection hu with h1 h2 h3
        subst h1
        refine ⟨hlock, hidlt, ?_⟩
        intro p hp
        rcases List.mem_append.1 hp with h | h
        · exact hle p h
        · rw [List.mem_singleton] at h
          subst h
          exact Nat.le_refl _
      · rw [Function.update_noteq hut] at hu
        have h2 := (hholder u id' rem' pnd' hu).1
        rw [hlock] at h2
        injection h2 with h2
        exact absurd h2.symm hut
  | release t id pend s' hlock hth hs' =>
    subst hs'
    refine ⟨hmono, hbound, ?_⟩
    intro u id' rem' pnd' hu
    dsimp only at hu ⊢
    by_cases hut : u = t
    · subst hut
      rw [Function.update_same] at hu
      exact absurd hu (by simp)
    · rw [Function.update_noteq hut] at hu
      have h2 := (hholder u id' rem' pnd' hu).1
      rw [hlock] at h2
      injection h2 with h2
      exact absurd h2.symm hut

theorem Inv_reachable {calls : Nat → List (List BusEvent)} {s : Sys}
    (h : Reachable (Sys.start calls) s) : Inv s := by
  induction h with
  | refl => exact Inv_start calls
  | step _ hstep ih => exact Inv_step ih hstep

/-- An environment in which every bus primitive succeeds: the open returns
descriptor 3 and the peripheral answers byte `i + 1` at offset `i`. -/
def okEnv : BusEnv :=
  { openResult := some 3,
    setAddrOk := fun _ => true,
    writeOk := fun _ _ => true,
    readResult := fun _ _ => some fun i => i + 1 }

/-- An environment in which every bus primitive fails. -/
def failEnv : BusEnv :=
  { openResult := none,
    setAddrOk := fun _ => false,
    writeOk := fun _ _ => false,
    readResult := fun _ _ => none }

/-- C1: calling `transact` while the descriptor is still in its unopened
`-1` state fails with `IOFailure`, performs no bus I/O (empty trace) and
leaves the read buffer untouched; and a failed `init()` (open fails)
leaves the descriptor in that unopened state, so the same applies after a
failed `init()`. -/
theorem transact_before_init_fails (env : BusEnv) (s : I2CState)
    (addr cmd writeNum readNum : Nat) (writeBuf readBuf : List Nat)
    (h : s.file = -1) :
    I2C.transact env s addr cmd writeNum readNum writeBuf readBuf =
      ⟨some ⟨⟩, readBuf, []⟩ ∧
    ((I2C.init { env with openResult := none } s).1).file = -1 := by
  constructor
  · unfold I2C.transact
    rw [if_pos h]
  · unfold I2C.init
    rw [if_pos h]
    exact h

theorem transact_before_init_fails_witness :
    (⟨-1⟩ : I2CState).file = -1 ∧
    (I2C.transact okEnv ⟨-1⟩ 80 16 2 0 [170, 187] [] =
        ⟨some ⟨⟩, [], []⟩ ∧
      ((I2C.init { okEnv with openResult := none } ⟨-1⟩).1).file = -1) :=
  ⟨rfl, transact_before_init_fails okEnv ⟨-1⟩ 80 16 2 0 [170, 187] [] rfl⟩

/-- C2: a successful transaction on an opened handle issues exactly
`1 + w` bytes in its write phase — the command byte followed by the `w`
payload bytes of the write buffer — and, when `r > 0`, subsequently reads
exactly `r` bytes into the read buffer, with the target address set on
the bus before both phases (the `setAddr` event heads the trace). -/
theorem transact_write_read_contract (env : BusEnv) (s : I2CState)
    (addr cmd writeNum readNum : Nat) (writeBuf readBuf : List Nat)
    (hw : writeNum < 256) (hr : readNum < 256) (hwb : writeNum ≤ writeBuf.length)
    (hok : (I2C.transact env s addr cmd writeNum readNum writeBuf readBuf).result = none) :
    (I2C.transact env s addr cmd writeNum readNum writeBuf readBuf).trace =
      [BusEvent.setAddr (addr % 256), BusEvent.write (cmd % 256 :: writeBuf.take writeNum)] ++
        (if readNum = 0 then [] else [BusEvent.read readNum]) ∧
    (cmd % 256 :: writeBuf.take writeNum).length = 1 + writeNum ∧
    (0 < readNum → ∃ f, env.readResult (addr % 256) readNum = some f ∧
      (I2C.transact env s addr cmd writeNum readNum writeBuf readBuf).readBuf =
        (List.range readNum).map f ++ readBuf.drop readNum ∧
      ((List.range readNum).map f).length = readNum) := by
  have hlen : (cmd % 256 :: writeBuf.take writeNum).length = 1 + writeNum := by
    simp only [List.length_cons, List.length_take]
    omega
  unfold I2C.transact at hok ⊢
  rw [Nat.mod_eq_of_lt hw, Nat.mod_eq_of_lt hr] at hok ⊢
  split_ifs at hok ⊢ with h1 h2 h3 h4
  · refine ⟨rfl, hlen, ?_⟩
    intro hpos
    omega
  · cases hread : env.readResult (addr % 256) readNum with
    | none =>
      rw [hread] at hok
      exact Option.noConfusion hok
    | some f =>
      refine ⟨rfl, hlen, ?_⟩
      intro hpos
      exact ⟨f, rfl, rfl, by simp⟩

theorem transact_write_read_contract_witness :
    (0 : Nat) < 256 ∧ (4 : Nat) < 256 ∧ (0 : Nat) ≤ ([] : List Nat).length ∧
    (I2C.transact okEnv ⟨3⟩ 80 0 0 4 [] [9, 9, 9, 9]).result = none ∧
    ((I2C.transact okEnv ⟨3⟩ 80 0 0 4 [] [9, 9, 9, 9]).trace =
        [BusEvent.setAddr (80 % 256), BusEvent.write (0 % 256 :: ([] : List Nat).take 0)] ++
          (if (4 : Nat) = 0 then [] else [BusEvent.read 4]) ∧
      ((0 : Nat) % 256 :: ([] : List Nat).take 0).length = 1 + 0 ∧
      (0 < 4 → ∃ f, okEnv.readResult (80 % 256) 4 = some f ∧
        (I2C.transact okEnv ⟨3⟩ 80 0 0 4 [] [9, 9, 9, 9]).readBuf =
          (List.range 4).map f ++ ([9, 9, 9, 9] : List Nat).drop 4 ∧
        ((List.range 4).map f).length = 4)) :=
  ⟨by norm_num, by norm_num, by simp,
    rfl,
    transact_write_read_contract okEnv ⟨3⟩ 80 0 0 4 [] [9, 9, 9, 9]
      (by norm_num) (by norm_num) (by simp) rfl⟩

/-- C3: a `transact` call with `readCount = 0` performs no read phase (no
`read` event appears in its trace) and leaves the read buffer completely
unchanged, on every path including the failing ones. -/
theorem transact_zero_read_untouched (env : BusEnv) (s : I2CState)
    (addr cmd writeNum : Nat) (writeBuf readBuf : List Nat) :
    (I2C.transact env s addr cmd writeNum 0 writeBuf readBuf).readBuf = readBuf ∧
    (I2C.transact env s addr cmd writeNum 0 writeBuf readBuf).trace.countP isReadEv = 0 := by
  unfold I2C.transact
  split_ifs with h1 h2 h3 h4
  · exact ⟨rfl, rfl⟩
  · exact ⟨rfl, by simp [List.countP, List.countP.go, isReadEv]⟩
  · exact ⟨rfl, by simp [List.countP, List.countP.go, isReadEv]⟩
  · exact ⟨rfl, by simp [List.countP, List.countP.go, isReadEv]⟩
  · exact absurd rfl h4

/-- C4: `init()` is idempotent — a second `init()` leaves the descriptor
state exactly as after the first, and every subsequent `transact` behaves
identically after two `init()` calls and after one. -/
theorem init_idempotent (env : BusEnv) (s : I2CState) :
    (I2C.init env (I2C.init env s).1).1 = (I2C.init env s).1 ∧
    ∀ addr cmd writeNum readNum writeBuf readBuf,
      I2C.transact env (I2C.init env (I2C.init env s).1).1
          addr cmd writeNum readNum writeBuf readBuf =
        I2C.transact env (I2C.init env s).1 addr cmd writeNum readNum writeBuf readBuf := by
  have hfix : (I2C.init env (I2C.init env s).1).1 = (I2C.init env s).1 := by
    unfold I2C.init
    by_cases h : s.file = -1
    · rw [if_pos h]
      cases ho : env.openResult with
      | some fd =>
        dsimp only
        rw [if_neg (by omega : ¬((fd : Int) = -1))]
      | none =>
        dsimp only
        rw [if_pos h]
    · rw [if_neg h, if_neg h]
  exact ⟨hfix, fun addr cmd writeNum readNum writeBuf readBuf => by rw [hfix]⟩

/-- C6: every failure of `init()` and every failure of `transact()` —
whatever the failing phase — is surfaced as the same single error kind
`IOFailure`: an `init` failure and a `transact` failure are equal as
errors, with no diagnostic payload telling them apart. -/
theorem failure_uniform_iofailure (env env' : BusEnv) (s s' : I2CState)
    (addr cmd writeNum readNum : Nat) (writeBuf readBuf : List Nat)
    (e e' : IOFailure)
    (hinit : (I2C.init env s).2 = some e)
    (htr : (I2C.transact env' s' addr cmd writeNum readNum writeBuf readBuf).result = some e') :
    e = e' := by
  cases e
  cases e'
  rfl

theorem failure_uniform_iofailure_witness :
    (I2C.init failEnv ⟨-1⟩).2 = some ⟨⟩ ∧
    (I2C.transact okEnv ⟨-1⟩ 80 0 0 1 [] []).result = some ⟨⟩ ∧
    (⟨⟩ : IOFailure) = ⟨⟩ :=
  ⟨by decide, by decide,
    failure_uniform_iofailure failEnv okEnv ⟨-1⟩ ⟨-1⟩ 80 0 0 1 [] [] ⟨⟩ ⟨⟩
      (by decide) (by decide)⟩

/-- C7: `transact` performs no retries — when a call fails, its trace is a
(possibly improper) leading portion of the single address-set / write /
read sequence, cut off at the failing phase, so no phase is ever
attempted twice and no bus operation follows the failure; and the read
buffer is left unchanged (no partial-completion recovery). -/
theorem transact_no_retry (env : BusEnv) (s : I2CState)
    (addr cmd writeNum readNum : Nat) (writeBuf readBuf : List Nat) (e : IOFailure)
    (h : (I2C.transact env s addr cmd writeNum readNum writeBuf readBuf).result = some e) :
    ((I2C.transact env s addr cmd writeNum readNum writeBuf readBuf).trace = [] ∨
     (I2C.transact env s addr cmd writeNum readNum writeBuf readBuf).trace =
       [BusEvent.setAddr (addr % 256)] ∨
     (I2C.transact env s addr cmd writeNum readNum writeBuf readBuf).trace =
       [BusEvent.setAddr (addr % 256),
        BusEvent.write (cmd % 256 :: writeBuf.take (writeNum % 256))] ∨
     (I2C.transact env s addr cmd writeNum readNum writeBuf readBuf).trace =
       [BusEvent.setAddr (addr % 256),
        BusEvent.write (cmd % 256 :: writeBuf.take (writeNum % 256)),
        BusEvent.read (readNum % 256)]) ∧
    (I2C.transact env s addr cmd writeNum readNum writeBuf readBuf).readBuf = readBuf := by
  unfold I2C.transact at h ⊢
  split_ifs at h ⊢ with h1 h2 h3 h4
  · exact ⟨Or.inl rfl, rfl⟩
  · exact ⟨Or.inr (Or.inl rfl), rfl⟩
  · exact ⟨Or.inr (Or.inr (Or.inl rfl)), rfl⟩
  · cases hread : env.readResult (addr % 256) (readNum % 256) with
    | none => exact ⟨Or.inr (Or.inr (Or.inr rfl)), rfl⟩
    | some f =>
      rw [hread] at h
      exact Option.noConfusion h

theorem transact_no_retry_witness :
    (I2C.transact failEnv ⟨3⟩ 80 16 2 4 [170, 187] [9]).result = some ⟨⟩ ∧
    ((I2C.transact failEnv ⟨3⟩ 80 16 2 4 [170, 187] [9]).trace = [] ∨
     (I2C.transact failEnv ⟨3⟩ 80 16 2 4 [170, 187] [9]).trace =
       [BusEvent.setAddr (80 % 256)] ∨
     (I2C.transact failEnv ⟨3⟩ 80 16 2 4 [170, 187] [9]).trace =
       [BusEvent.setAddr (80 % 256),
        BusEvent.write (16 % 256 :: ([170, 187] : List Nat).take (2 % 256))] ∨
     (I2C.transact failEnv ⟨3⟩ 80 16 2 4 [170, 187] [9]).trace =
       [BusEvent.setAddr (80 % 256),
        BusEvent.write (16 % 256 :: ([170, 187] : List Nat).take (2 % 256)),
        BusEvent.read (4 % 256)]) ∧
    (I2C.transact failEnv ⟨3⟩ 80 16 2 4 [170, 187] [9]).readBuf = [9] :=
  ⟨rfl, transact_no_retry failEnv ⟨3⟩ 80 16 2 4 [170, 187] [9] ⟨⟩ rfl⟩

/-- C8: the `uint8_t` interface types bound every transaction — any write
phase issues at most 256 bytes (the command byte plus at most 255 payload
bytes), any read phase requests at most 255 bytes, and any target
address is at most 255. -/
theorem transact_byte_bounds (env : BusEnv) (s : I2CState)
    (addr cmd writeNum readNum : Nat) (writeBuf readBuf : List Nat) (e : BusEvent)
    (he : e ∈ (I2C.transact env s addr cmd writeNum readNum writeBuf readBuf).trace) :
    byteBounded e := by
  have haddr : byteBounded (BusEvent.setAddr (addr % 256)) := by
    show addr % 256 ≤ 255
    have := Nat.mod_lt addr (show 0 < 256 by norm_num)
    omega
  have hwrite : byteBounded (BusEvent.write (cmd % 256 :: writeBuf.take (writeNum % 256))) := by
    show (cmd % 256 :: writeBuf.take (writeNum % 256)).length ≤ 256
    have := Nat.mod_lt writeNum (show 0 < 256 by norm_num)
    simp only [List.length_cons, List.length_take]
    omega
  have hreadb : byteBounded (BusEvent.read (readNum % 256)) := by
    show readNum % 256 ≤ 255
    have := Nat.mod_lt readNum (show 0 < 256 by norm_num)
    omega
  unfold I2C.transact at he
  split_ifs at he with h1 h2 h3 h4
  · exact absurd he (List.not_mem_nil e)
  · rw [List.mem_singleton] at he
    subst he
    exact haddr
  · simp only [List.mem_cons, List.not_mem_nil, or_false] at he
    rcases he with rfl | rfl
    · exact haddr
    · exact hwrite
  · simp only [List.mem_cons, List.not_mem_nil, or_false] at he
    rcases he with rfl | rfl
    · exact haddr
    · exact hwrite
  · cases hread : env.readResult (addr % 256) (readNum % 256) with
    | none =>
      rw [hread] at he
      simp only [List.mem_cons, List.not_mem_nil, or_false] at he
      rcases he with rfl | rfl | rfl
      · exact haddr
      · exact hwrite
      · exact hreadb
    | some f =>
      rw [hread] at he
      simp only [List.mem_cons, List.not_mem_nil, or_false] at he
      rcases he with rfl | rfl | rfl
      · exact haddr
      · exact hwrite
      · exact hreadb

theorem transact_byte_bounds_witness :
    BusEvent.write [16, 170, 187] ∈
      (I2C.transact okEnv ⟨3⟩ 80 16 2 0 [170, 187] []).trace ∧
    byteBounded (BusEvent.write [16, 170, 187]) :=
  ⟨by decide,
    transact_byte_bounds okEnv ⟨3⟩ 80 16 2 0 [170, 187] []
      (BusEvent.write [16, 170, 187]) (by decide)⟩

/-- C9: the `IOFailure` value carries no fields, so two failures arising
from entirely different calls, states and causes are indistinguishable to
the caller: the surfaced errors are always equal. -/
theorem iofailure_carries_no_cause (env env' : BusEnv) (s s' : I2CState)
    (addr cmd writeNum readNum addr' cmd' writeNum' readNum' : Nat)
    (writeBuf readBuf writeBuf' readBuf' : List Nat) (e e' : IOFailure)
    (h : (I2C.transact env s addr cmd writeNum readNum writeBuf readBuf).result = some e)
    (h' : (I2C.transact env' s' addr' cmd' writeNum' readNum' writeBuf' readBuf').result =
      some e') :
    e = e' := by
  cases e
  cases e'
  rfl

theorem iofailure_carries_no_cause_witness :
    (I2C.transact okEnv ⟨-1⟩ 80 0 0 0 [] []).result = some ⟨⟩ ∧
    (I2C.transact failEnv ⟨3⟩ 81 1 0 0 [] []).result = some ⟨⟩ ∧
    (⟨⟩ : IOFailure) = ⟨⟩ :=
  ⟨by decide, by decide,
    iofailure_carries_no_cause okEnv failEnv ⟨-1⟩ ⟨3⟩ 80 0 0 0 81 1 0 0 [] [] [] [] ⟨⟩ ⟨⟩
      (by decide) (by decide)⟩

/-- C5: in every reachable state of the concurrent system, the bus trace
is block-structured — if two bus operations carry the same call ticket,
every operation recorded between them carries that ticket too, so phases
of distinct `transact` calls never interleave (whole calls may still
occur in any order). -/
theorem transact_no_phase_interleaving (calls : Nat → List (List BusEvent)) (s : Sys)
    (hreach : Reachable (Sys.start calls) s)
    (i j k : Fin (s.trace.map Prod.fst).length)
    (hij : i ≤ j) (hjk : j ≤ k)
    (hik : (s.trace.map Prod.fst).get i = (s.trace.map Prod.fst).get k) :
    (s.trace.map Prod.fst).get j = (s.trace.map Prod.fst).get i := by
  have hmono := (Inv_reachable hreach).1
  have hpw := List.pairwise_iff_get.1 hmono
  have h1 : (s.trace.map Prod.fst).get i ≤ (s.trace.map Prod.fst).get j := by
    rcases lt_or_eq_of_le hij with h | h
    · exact hpw i j h
    · rw [h]
  have h2 : (s.trace.map Prod.fst).get j ≤ (s.trace.map Prod.fst).get k := by
    rcases lt_or_eq_of_le hjk with h | h
    · exact hpw j k h
    · rw [h]
  rw [← hik] at h2
  exact le_antisymm h2 h1

/-- A concrete schedule used to exercise the concurrency theorems:
thread 0 makes one `transact` call issuing two bus operations. -/
def wCalls : Nat → List (List BusEvent) := fun t =>
  if t = 0 then [[BusEvent.setAddr 80, BusEvent.write [16, 170, 187]]] else []

def wSys0 : Sys := Sys.start wCalls

def wSys1 : Sys :=
  { lock := some 0,
    threads := Function.update wSys0.threads 0
      (ThreadSt.inCall 0 [BusEvent.setAddr 80, BusEvent.write [16, 170, 187]] []),
    nextId := 1,
    trace := [] }

def wSys2 : Sys :=
  { wSys1 with
      threads := Function.update wSys1.threads 0
        (ThreadSt.inCall 0 [BusEvent.write [16, 170, 187]] []),
      trace := wSys1.trace ++ [(0, BusEvent.setAddr 80)] }

def wSys3 : Sys :=
  { wSys2 with
      threads := Function.update wSys2.threads 0 (ThreadSt.inCall 0 [] []),
      trace := wSys2.trace ++ [(0, BusEvent.write [16, 170, 187])] }

theorem wStep01 : Step wSys0 wSys1 :=
  Step.acquire wSys0 0 [BusEvent.setAddr 80, BusEvent.write [16, 170, 187]] [] wSys1
    rfl rfl rfl

theorem wStep12 : Step wSys1 wSys2 :=
  Step.emit wSys1 0 0 (BusEvent.setAddr 80) [BusEvent.write [16, 170, 187]] [] wSys2
    rfl rfl rfl

theorem wStep23 : Step wSys2 wSys3 :=
  Step.emit wSys2 0 0 (BusEvent.write [16, 170, 187]) [] [] wSys3
    rfl rfl rfl

theorem wReach1 : Reachable (Sys.start wCalls) wSys1 :=
  Reachable.step Reachable.refl wStep01

theorem wReach3 : Reachable (Sys.start wCalls) wSys3 :=
  Reachable.step (Reachable.step wReach1 wStep12) wStep23

theorem transact_no_phase_interleaving_witness :
    (wSys3.trace.map Prod.fst).get ⟨0, by decide⟩ = (wSys3.trace.map Prod.fst).get ⟨1, by decide⟩ ∧
    (wSys3.trace.map Prod.fst).get ⟨0, by decide⟩ = (wSys3.trace.map Prod.fst).get ⟨0, by decide⟩ :=
  ⟨by decide,
    transact_no_phase_interleaving wCalls wSys3 wReach3
      ⟨0, by decide⟩ ⟨0, by decide⟩ ⟨1, by decide⟩
      (by decide) (by decide) (by decide)⟩

/-- C10: the component state is process-wide and shared — every caller
serializes through the one lock, so in every reachable state at most one
thread is inside a `transact` call: any two mid-call threads are the same
thread. -/
theorem single_shared_lock_excludes (calls : Nat → List (List BusEvent)) (s : Sys)
    (hreach : Reachable (Sys.start calls) s)
    (t1 t2 id1 id2 : Nat) (rem1 rem2 : List BusEvent) (pend1 pend2 : List (List BusEvent))
    (h1 : s.threads t1 = ThreadSt.inCall id1 rem1 pend1)
    (h2 : s.threads t2 = ThreadSt.inCall id2 rem2 pend2) :
    t1 = t2 := by
  have hholder := (Inv_reachable hreach).2.2
  have ha := (hholder t1 id1 rem1 pend1 h1).1
  have hb := (hholder t2 id2 rem2 pend2 h2).1
  rw [ha] at hb
  exact Option.some.inj hb

theorem single_shared_lock_excludes_witness :
    wSys1.threads 0 =
      ThreadSt.inCall 0 [BusEvent.setAddr 80, BusEvent.write [16, 170, 187]] [] ∧
    (0 : Nat) = 0 :=
  ⟨by decide,
    single_shared_lock_excludes wCalls wSys1 wReach1 0 0 0 0
      [BusEvent.setAddr 80, BusEvent.write [16, 170, 187]]
      [BusEvent.setAddr 80, BusEvent.write [16, 170, 187]] [] []
      (by decide) (by decide)⟩

end MRover
